import Mathlib

/-!
Verification of the Pull-Request Reviewer Assignment Service.

Shallow embedding of the Go service: the relational state (tables of
`init.sql`) is a record of lists, each repository operation
(`internal/repository`, embedded in the repo sources) is a pure function
`DB → Except Err α × DB` where the returned `DB` is the committed state
(the pre-call state when the operation rolled back), and the service
façade (`internal/service/service.go`) composes them.
-/

namespace PRService

/-- Row of the `users` table (entity.User / init.sql `users`). -/
structure UserRow where
  id : String
  username : String
  isActive : Bool
deriving Repr, DecidableEq

/-- Row of the `teams` table (`team_id SERIAL`, `team_name`). -/
structure TeamRow where
  teamId : Nat
  teamName : String
deriving Repr, DecidableEq

/-- Row of the `team_members` link table. -/
structure TeamMemberRow where
  teamId : Nat
  userId : String
deriving Repr, DecidableEq

/-- Row of the `pull_requests` table.  Timestamps are modelled by the
logical clock `DB.now` (a `Nat`). -/
structure PRRow where
  prId : String
  title : String
  authorId : String
  status : String
  createdAt : Nat
  mergedAt : Option Nat
deriving Repr, DecidableEq

/-- Row of the `reviewers` table, primary key `(prId, userId)`. -/
structure ReviewerRow where
  prId : String
  userId : String
  isActive : Bool
deriving Repr, DecidableEq

/-- The datastore: the five tables of `init.sql`, the SERIAL counter for
`teams.team_id`, and a logical clock standing for `CURRENT_TIMESTAMP`. -/
structure DB where
  teams : List TeamRow
  users : List UserRow
  teamMembers : List TeamMemberRow
  pullRequests : List PRRow
  reviewers : List ReviewerRow
  nextTeamId : Nat
  now : Nat
deriving Repr, DecidableEq

/-- The typed domain errors of `internal/entity` plus `infra` for raw
datastore errors (constraint violations, `sql.ErrNoRows` propagated
unclassified). -/
inductive Err where
  | teamExists
  | prExists
  | prMerged
  | notAssigned
  | noCandidate
  | notFound
  | infra
deriving Repr, DecidableEq

/-- ASCII lower-casing of a string, modelling SQL `LOWER`. -/
def lowerStr (s : String) : String :=
  ⟨s.data.map Char.toLower⟩

/-- Point lookup `SELECT ... FROM users WHERE user_id = $1`. -/
def lookupUser (db : DB) (uid : String) : Option UserRow :=
  db.users.find? (fun u => u.id == uid)

/-- Point lookup `SELECT ... FROM pull_requests WHERE pull_request_id = $1`. -/
def lookupPR (db : DB) (pid : String) : Option PRRow :=
  db.pullRequests.find? (fun p => p.prId == pid)

/-- The active reviewer rows of a pull request. -/
def activeReviewerRows (db : DB) (pid : String) : List ReviewerRow :=
  db.reviewers.filter (fun r => r.prId == pid && r.isActive)

/-- The user ids of the active reviewers of a pull request. -/
def activeReviewerIds (db : DB) (pid : String) : List String :=
  (activeReviewerRows db pid).map (fun r => r.userId)

/-- Whether any `reviewers` row (active or not) exists for `(pid, uid)`:
the primary-key conflict test for an insert. -/
def hasReviewerRow (db : DB) (pid uid : String) : Bool :=
  db.reviewers.any (fun r => r.prId == pid && r.userId == uid)

/-- `EXISTS(SELECT 1 FROM reviewers WHERE pr = $1 AND user = $2 AND is_active)`. -/
def isAssignedActive (db : DB) (pid uid : String) : Bool :=
  db.reviewers.any (fun r => r.prId == pid && r.userId == uid && r.isActive)

/-- The member upsert of `CreateTeam`: `INSERT ... ON CONFLICT (user_id)
DO UPDATE SET username, is_active`. -/
def upsertUser (users : List UserRow) (m : UserRow) : List UserRow :=
  if users.any (fun u => u.id == m.id) then
    users.map (fun u =>
      if u.id == m.id then { u with username := m.username, isActive := m.isActive } else u)
  else
    users ++ [m]

/-- `INSERT INTO team_members ... ON CONFLICT DO NOTHING`. -/
def linkMember (tms : List TeamMemberRow) (tid : Nat) (uid : String) : List TeamMemberRow :=
  if tms.any (fun t => t.teamId == tid && t.userId == uid) then tms
  else tms ++ [⟨tid, uid⟩]

/-- One iteration of the member loop of `RepositoryImpl.CreateTeam`. -/
def addMember (tid : Nat) (acc : DB) (m : UserRow) : DB :=
  { acc with
    users := upsertUser acc.users m
    teamMembers := linkMember acc.teamMembers tid m.id }

/-- `RepositoryImpl.CreateTeam`: duplicate-name check (case-insensitive),
team insert, then per-member upsert + link, all in one transaction. -/
def repoCreateTeam (db : DB) (name : String) (members : List UserRow) :
    Except Err TeamRow × DB :=
  if db.teams.any (fun t => lowerStr t.teamName == lowerStr name) then
    (.error .teamExists, db)
  else
    let tid := db.nextTeamId
    let db1 := members.foldl (addMember tid)
      { db with teams := db.teams ++ [⟨tid, name⟩], nextTeamId := tid + 1 }
    (.ok ⟨tid, name⟩, { db1 with now := db1.now + 1 })

/-- `RepositoryImpl.SetUserActive`: `UPDATE users SET is_active = $1 WHERE
user_id = $2 RETURNING ...`; `NotFound` when no row matches. -/
def repoSetUserActive (db : DB) (uid : String) (active : Bool) :
    Except Err UserRow × DB :=
  match lookupUser db uid with
  | none => (.error .notFound, db)
  | some u =>
    (.ok { u with isActive := active },
     { db with
        users := db.users.map (fun v =>
          if v.id == uid then { v with isActive := active } else v)
        now := db.now + 1 })

/-- The committed state of `SetUserActive(uid, true)` on an existing
user: the user row is activated and the clock ticks. -/
def setActiveDB (db : DB) (a : String) : DB :=
  { db with
    users := db.users.map (fun v => if v.id == a then { v with isActive := true } else v)
    now := db.now + 1 }

/-- A single `INSERT INTO reviewers (pull_request_id, user_id, is_active)`:
`none` models a constraint violation (primary key `(pr_id, user_id)` or a
foreign key), which aborts the enclosing transaction. -/
def insertReviewer (db : DB) (pid uid : String) (active : Bool) :
    Option (List ReviewerRow) :=
  if hasReviewerRow db pid uid then none
  else if (lookupUser db uid).isNone then none
  else if (lookupPR db pid).isNone then none
  else some (db.reviewers ++ [⟨pid, uid, active⟩])

/-- The reviewer-insert loop of `RepositoryImpl.CreatePR`. -/
def insertReviewersLoop (db : DB) (pid : String) : List String → Option DB
  | [] => some db
  | uid :: rest =>
    match insertReviewer db pid uid true with
    | none => none
    | some rs => insertReviewersLoop { db with reviewers := rs } pid rest

/-- `RepositoryImpl.CreatePR`: duplicate-id check, PR insert in `OPEN`
status, one active reviewer row per id; any constraint violation rolls
the whole transaction back. -/
def repoCreatePR (db : DB) (pid title authorId : String) (reviewerIDs : List String) :
    Except Err Unit × DB :=
  if (lookupPR db pid).isSome then
    (.error .prExists, db)
  else if (lookupUser db authorId).isNone then
    (.error .infra, db)
  else
    let db1 := { db with
      pullRequests := db.pullRequests ++ [⟨pid, title, authorId, "OPEN", db.now, none⟩] }
    match insertReviewersLoop db1 pid reviewerIDs with
    | none => (.error .infra, db)
    | some db2 => (.ok (), { db2 with now := db.now + 1 })

/-- `RepositoryImpl.MergePR`: `UPDATE ... SET status = MERGED, merged_at =
CURRENT_TIMESTAMP WHERE pull_request_id = $1 AND status != MERGED
RETURNING ...`; when no row matched, an already-`MERGED` PR is returned
unchanged and a missing PR yields `NotFound`. -/
def repoMergePR (db : DB) (pid : String) : Except Err PRRow × DB :=
  match lookupPR db pid with
  | none => (.error .notFound, db)
  | some pr =>
    if pr.status == "MERGED" then
      (.ok pr, db)
    else
      let merged : PRRow := { pr with status := "MERGED", mergedAt := some db.now }
      (.ok merged,
       { db with
          pullRequests := db.pullRequests.map (fun p =>
            if p.prId == pid then merged else p)
          now := db.now + 1 })

/-- The reviewer list returned by `RepositoryImpl.GetPRReviewers`. -/
def getPRReviewers (db : DB) (pid : String) : List UserRow :=
  (db.reviewers.filter (fun r => r.prId == pid && r.isActive)).filterMap
    (fun r => lookupUser db r.userId)

/-- `RepositoryImpl.GetPR`: the PR row plus its active reviewers. -/
def repoGetPR (db : DB) (pid : String) : Except Err (PRRow × List UserRow) :=
  match lookupPR db pid with
  | none => .error .notFound
  | some pr => .ok (pr, getPRReviewers db pid)

/-- The eligibility test of the replacement query inside
`RepositoryImpl.ReassignReviewer`: same team as the author, not the
author, not the departing reviewer, active, and not currently an active
reviewer of the PR.  The `SELECT ... LIMIT 1` has no `ORDER BY`. -/
def eligibleReplacement (db : DB) (tid : Nat) (authorId oldUid pid : String)
    (u : UserRow) : Bool :=
  db.teamMembers.any (fun tm => tm.teamId == tid && tm.userId == u.id)
    && u.id != authorId
    && u.id != oldUid
    && u.isActive
    && !(db.reviewers.any (fun r => r.prId == pid && r.userId == u.id && r.isActive))

/-- The replacement candidate: the first eligible user in table order
(the query has `LIMIT 1` and no `ORDER BY`). -/
def reassignCandidate (db : DB) (tid : Nat) (authorId oldUid pid : String) :
    Option UserRow :=
  db.users.find? (eligibleReplacement db tid authorId oldUid pid)

/-- `UPDATE reviewers SET is_active = false WHERE pull_request_id = $1
AND user_id = $2`. -/
def deactivateOld (db : DB) (pid oldUid : String) : DB :=
  { db with
    reviewers := db.reviewers.map (fun r =>
      if r.prId == pid && r.userId == oldUid then { r with isActive := false } else r) }

/-- `RepositoryImpl.ReassignReviewer`: status lookup (`NotFound`),
`MERGED` check (`PRMerged`), active-assignment check (`NotAssigned`),
author-team lookup (raw error when the author has no team), replacement
selection (`NoCandidate`), then deactivate-old + insert-new; a constraint
violation on the insert rolls the transaction back. -/
def repoReassignReviewer (db : DB) (pid oldUid : String) : Except Err String × DB :=
  match lookupPR db pid with
  | none => (.error .notFound, db)
  | some pr =>
    if pr.status == "MERGED" then
      (.error .prMerged, db)
    else if !(isAssignedActive db pid oldUid) then
      (.error .notAssigned, db)
    else
      match db.teamMembers.find? (fun tm => tm.userId == pr.authorId) with
      | none => (.error .infra, db)
      | some tm =>
        match reassignCandidate db tm.teamId pr.authorId oldUid pid with
        | none => (.error .noCandidate, db)
        | some newU =>
          match insertReviewer (deactivateOld db pid oldUid) pid newU.id true with
          | none => (.error .infra, db)
          | some rs =>
            (.ok newU.id, { deactivateOld db pid oldUid with reviewers := rs, now := db.now + 1 })

/-- Number of `team_members` rows of `uid` whose team also contains
`authorId` (the `tm` × `tm_author` join of `GetCandidateReviewers`). -/
def sharedTeamCount (db : DB) (uid authorId : String) : Nat :=
  (db.teamMembers.filter (fun tm => tm.userId == uid
    && db.teamMembers.any (fun ta => ta.teamId == tm.teamId && ta.userId == authorId))).length

/-- Number of active `reviewers` rows of `uid`, across all pull requests:
the `LEFT JOIN pull_requests ... AND pr.status = OPEN` of the source
query restricts only the joined (unused) `pr` columns, so
`COUNT(r.user_id)` still counts assignments on merged PRs. -/
def activeAssignCount (db : DB) (uid : String) : Nat :=
  (db.reviewers.filter (fun r => r.userId == uid && r.isActive)).length

/-- `COUNT(r.user_id)` of the `GetCandidateReviewers` query for one user:
one joined row per (shared team membership, active assignment) pair. -/
def candLoad (db : DB) (uid authorId : String) : Nat :=
  sharedTeamCount db uid authorId * activeAssignCount db uid

/-- The rows that survive the `WHERE` clause of `GetCandidateReviewers`:
teammates of the author, not the author, active. -/
def eligibleCandidates (db : DB) (authorId : String) : List UserRow :=
  db.users.filter (fun u => u.isActive && u.id != authorId
    && (sharedTeamCount db u.id authorId != 0))

/-- Strict lexicographic order on character lists (byte order of `text`
comparison for ASCII ids). -/
def charListLt : List Char → List Char → Bool
  | [], [] => false
  | [], _ :: _ => true
  | _ :: _, [] => false
  | a :: as, b :: bs => a < b || (a == b && charListLt as bs)

/-- Strict lexicographic order on strings. -/
def strLt (a b : String) : Bool :=
  charListLt a.data b.data

/-- The `ORDER BY current_assignments ASC, u.user_id` comparison. -/
def candLE (db : DB) (authorId : String) (a b : UserRow) : Bool :=
  decide (candLoad db a.id authorId < candLoad db b.id authorId)
    || (candLoad db a.id authorId == candLoad db b.id authorId
          && (strLt a.id b.id || a.id == b.id))

/-- Insert an element into a list sorted by `le` (first sorted position). -/
def insertSorted (le : α → α → Bool) (a : α) : List α → List α
  | [] => [a]
  | b :: l => if le a b then a :: b :: l else b :: insertSorted le a l

/-- Deterministic sorting by a boolean comparison, modelling `ORDER BY`. -/
def sortBy (le : α → α → Bool) : List α → List α
  | [] => []
  | a :: l => insertSorted le a (sortBy le l)

/-- `RepositoryImpl.GetCandidateReviewers`: the eligible teammates of the
author ordered by ascending assignment count then ascending user id,
truncated to `limit`. -/
def getCandidateReviewers (db : DB) (authorId : String) (limit : Nat) : List String :=
  ((sortBy (candLE db authorId) (eligibleCandidates db authorId)).take limit).map
    (fun u => u.id)

/-- entity.UserAssignmentCount. -/
structure UserAssignmentCount where
  userId : String
  username : String
  count : Nat
deriving Repr, DecidableEq

/-- entity.PRAssignmentCount. -/
structure PRAssignmentCount where
  prId : String
  title : String
  count : Nat
deriving Repr, DecidableEq

/-- entity.Stats. -/
structure Stats where
  userAssignmentCounts : List UserAssignmentCount
  prAssignmentCounts : List PRAssignmentCount
  totalAssignments : Nat
deriving Repr, DecidableEq

/-- Number of active `reviewers` rows of a pull request. -/
def prAssignCount (db : DB) (pid : String) : Nat :=
  (db.reviewers.filter (fun r => r.prId == pid && r.isActive)).length

/-- `RepositoryImpl.GetStats`: per-user and per-PR active-assignment
counts over `users LEFT JOIN reviewers` and `pull_requests LEFT JOIN
reviewers`, each ordered by descending count; the total accumulates over
the user rows. -/
def getStats (db : DB) : Stats :=
  let ucs := (db.users.map (fun u =>
    UserAssignmentCount.mk u.id u.username (activeAssignCount db u.id)))
  let ucsSorted := sortBy (fun a b => decide (b.count ≤ a.count)) ucs
  let pcs := (db.pullRequests.map (fun p =>
    PRAssignmentCount.mk p.prId p.title (prAssignCount db p.prId)))
  let pcsSorted := sortBy (fun a b => decide (b.count ≤ a.count)) pcs
  ⟨ucsSorted, pcsSorted, (ucsSorted.map (fun c => c.count)).sum⟩

/-- `ServiceImpl.CreateTeam`. -/
def svcCreateTeam (db : DB) (name : String) (members : List UserRow) :
    Except Err TeamRow × DB :=
  repoCreateTeam db name members

/-- `ServiceImpl.SetUserActive`. -/
def svcSetUserActive (db : DB) (uid : String) (active : Bool) :
    Except Err UserRow × DB :=
  repoSetUserActive db uid active

/-- `ServiceImpl.CreatePR`: looks the author up with
`SetUserActive(authorID, true)` — a committed write that survives any
later failure — then checks `IsActive` on the returned (just-activated)
record, fetches up to two candidates, and creates the PR. -/
def svcCreatePR (db : DB) (pid title authorId : String) :
    Except Err (PRRow × List UserRow) × DB :=
  match repoSetUserActive db authorId true with
  | (.error _, dbe) => (.error .notFound, dbe)
  | (.ok author, db1) =>
    if !author.isActive then
      (.error .infra, db1)
    else
      let cands := getCandidateReviewers db1 authorId 2
      if cands.isEmpty then
        (.error .noCandidate, db1)
      else
        match repoCreatePR db1 pid title authorId cands with
        | (.error e, db2) => (.error e, db2)
        | (.ok _, db2) =>
          match repoGetPR db2 pid with
          | .error e => (.error e, db2)
          | .ok res => (.ok res, db2)

/-- `ServiceImpl.MergePR`. -/
def svcMergePR (db : DB) (pid : String) : Except Err PRRow × DB :=
  repoMergePR db pid

/-- `ServiceImpl.ReassignReviewer`: service-level `GetPR`, status and
assignment pre-checks, then the repository transaction. -/
def svcReassignReviewer (db : DB) (pid oldUid : String) :
    Except Err (PRRow × List UserRow × String) × DB :=
  match repoGetPR db pid with
  | .error e => (.error e, db)
  | .ok res =>
    if res.1.status != "OPEN" then
      (.error .prMerged, db)
    else if !(res.2.any (fun u => u.id == oldUid)) then
      (.error .notAssigned, db)
    else
      match repoReassignReviewer db pid oldUid with
      | (.error e, db1) => (.error e, db1)
      | (.ok newUid, db1) =>
        match repoGetPR db1 pid with
        | .error e => (.error e, db1)
        | .ok res1 => (.ok (res1.1, res1.2, newUid), db1)

/-- One user-facing operation of the service façade, as a transition on
the datastore state (the committed post state, identical to the pre
state when the operation rolled back). -/
inductive Step : DB → DB → Prop where
  | createTeam (db : DB) (name : String) (members : List UserRow) :
      Step db (svcCreateTeam db name members).2
  | createPR (db : DB) (pid title authorId : String) :
      Step db (svcCreatePR db pid title authorId).2
  | mergePR (db : DB) (pid : String) :
      Step db (svcMergePR db pid).2
  | reassign (db : DB) (pid oldUid : String) :
      Step db (svcReassignReviewer db pid oldUid).2
  | setActive (db : DB) (uid : String) (active : Bool) :
      Step db (svcSetUserActive db uid active).2

/-- The empty initial datastore (`init.sql` creates empty tables;
`team_id` SERIAL starts at 1). -/
def db0 : DB := ⟨[], [], [], [], [], 1, 0⟩

/-- States reachable from the empty datastore by service operations. -/
inductive Reachable : DB → Prop where
  | init : Reachable db0
  | step {db db1 : DB} : Reachable db → Step db db1 → Reachable db1

deriving instance DecidableEq for Except

/-- The datastore invariants maintained by the service operations:
unique user ids and PR ids (primary keys), unique `(prId, userId)`
reviewer keys (primary key), no reviewer row naming its PR's author, and
every reviewer row referencing an existing PR (foreign key). -/
def Inv (db : DB) : Prop :=
  (db.users.map (fun u => u.id)).Nodup ∧
  (db.pullRequests.map (fun p => p.prId)).Nodup ∧
  (db.reviewers.map (fun r => (r.prId, r.userId))).Nodup ∧
  (∀ r ∈ db.reviewers, ∀ pr ∈ db.pullRequests, r.prId = pr.prId → r.userId ≠ pr.authorId) ∧
  (∀ r ∈ db.reviewers, ∃ pr ∈ db.pullRequests, pr.prId = r.prId)

/-- State after creating a team with an author and one teammate. -/
def dbw7a : DB :=
  (svcCreateTeam db0 "team1" [⟨"a1", "A", true⟩, ⟨"r1", "R1", true⟩]).2

/-- State after additionally creating a pull request. -/
def dbw7b : DB :=
  (svcCreatePR dbw7a "p1" "T" "a1").2

/-- The load of a user as the specification defines it (§4.2 and the
glossary): number of active reviewer assignments the user holds on OPEN
pull requests.  Stated from the spec's words, for comparison with the
source-derived `candLoad`. -/
def specOpenLoad (db : DB) (uid : String) : Nat :=
  (db.reviewers.filter (fun r => r.userId == uid && r.isActive
    && (match lookupPR db r.prId with
        | some p => p.status == "OPEN"
        | none => false))).length

/-- State with a PR whose active reviewer is `r1` while `r2` has a
leftover inactive assignment row on the same PR. -/
def dbC2 : DB :=
  ⟨[⟨1, "team1"⟩],
   [⟨"au", "AU", true⟩, ⟨"r1", "R1", true⟩, ⟨"r2", "R2", true⟩],
   [⟨1, "au"⟩, ⟨1, "r1"⟩, ⟨1, "r2"⟩],
   [⟨"p1", "T", "au", "OPEN", 0, none⟩],
   [⟨"p1", "r1", true⟩, ⟨"p1", "r2", false⟩],
   2, 1⟩

/-- State where the first eligible replacement in table order (`r2`)
carries one open-PR assignment while `r3` carries none. -/
def dbC3 : DB :=
  ⟨[⟨1, "team1"⟩],
   [⟨"au", "AU", true⟩, ⟨"r2", "R2", true⟩, ⟨"r3", "R3", true⟩, ⟨"r1", "R1", true⟩],
   [⟨1, "au"⟩, ⟨1, "r1"⟩, ⟨1, "r2"⟩, ⟨1, "r3"⟩],
   [⟨"p1", "T1", "au", "OPEN", 0, none⟩, ⟨"p2", "T2", "au", "OPEN", 0, none⟩],
   [⟨"p1", "r1", true⟩, ⟨"p2", "r2", true⟩],
   2, 1⟩

/-- State with one open PR, reviewer `r1`, and a free teammate `r2`. -/
def dbW2 : DB :=
  ⟨[⟨1, "team1"⟩],
   [⟨"au", "AU", true⟩, ⟨"r1", "R1", true⟩, ⟨"r2", "R2", true⟩],
   [⟨1, "au"⟩, ⟨1, "r1"⟩, ⟨1, "r2"⟩],
   [⟨"p1", "T", "au", "OPEN", 0, none⟩],
   [⟨"p1", "r1", true⟩],
   2, 1⟩

/-- State with one open PR, reviewer `ra`, and a free teammate `rb`. -/
def dbW3 : DB :=
  ⟨[⟨1, "team2"⟩],
   [⟨"aw", "AW", true⟩, ⟨"ra", "RA", true⟩, ⟨"rb", "RB", true⟩],
   [⟨1, "aw"⟩, ⟨1, "ra"⟩, ⟨1, "rb"⟩],
   [⟨"q1", "Q", "aw", "OPEN", 0, none⟩],
   [⟨"q1", "ra", true⟩],
   2, 1⟩

/-- State whose only user, the prospective author, is inactive and has no
teammates. -/
def dbC4 : DB :=
  ⟨[⟨1, "team1"⟩], [⟨"a1", "A", false⟩], [⟨1, "a1"⟩], [], [], 2, 0⟩

/-- State where teammate `a` has one assignment on an open PR and
teammate `b` has two assignments, both on merged PRs. -/
def dbC5 : DB :=
  ⟨[⟨1, "team1"⟩],
   [⟨"t", "T", true⟩, ⟨"a", "A", true⟩, ⟨"b", "B", true⟩],
   [⟨1, "t"⟩, ⟨1, "a"⟩, ⟨1, "b"⟩],
   [⟨"po", "PO", "t", "OPEN", 0, none⟩,
    ⟨"pm1", "PM1", "t", "MERGED", 0, some 1⟩,
    ⟨"pm2", "PM2", "t", "MERGED", 0, some 1⟩],
   [⟨"po", "a", true⟩, ⟨"pm1", "b", true⟩, ⟨"pm2", "b", true⟩],
   2, 2⟩

/-- State with an inactive author and one active teammate. -/
def dbC6 : DB :=
  ⟨[⟨1, "team1"⟩],
   [⟨"a1", "A", false⟩, ⟨"r1", "R1", true⟩],
   [⟨1, "a1"⟩, ⟨1, "r1"⟩],
   [], [], 2, 0⟩

/-- State with an open PR whose candidate replacement has a leftover
inactive row on that PR. -/
def dbW10 : DB :=
  ⟨[⟨1, "team3"⟩],
   [⟨"ax", "AX", true⟩, ⟨"rx", "RX", true⟩, ⟨"ry", "RY", true⟩],
   [⟨1, "ax"⟩, ⟨1, "rx"⟩, ⟨1, "ry"⟩],
   [⟨"px", "PX", "ax", "OPEN", 0, none⟩],
   [⟨"px", "rx", true⟩, ⟨"px", "ry", false⟩],
   2, 1⟩

/-- State with a single open PR authored by the only team member. -/
def dbW1 : DB :=
  ⟨[⟨1, "team1"⟩], [⟨"au", "AU", true⟩], [⟨1, "au"⟩],
   [⟨"p1", "T", "au", "OPEN", 0, none⟩], [], 2, 1⟩

section Lemmas

variable {α : Type}

/-- `find?` commutes with a map that does not change the predicate. -/
theorem find?_map_pred (p : α → Bool) (f : α → α) (l : List α)
    (h : ∀ a, p (f a) = p a) : (l.map f).find? p = (l.find? p).map f := by
  induction l with
  | nil => rfl
  | cons a l ih =>
    cases hpa : p a with
    | true => simp [List.find?_cons, h a, hpa]
    | false => simp [List.find?_cons, h a, hpa, ih]

/-- `any` is unchanged by a map that does not change the predicate. -/
theorem any_map_pred (p : α → Bool) (f : α → α) (l : List α)
    (h : ∀ a, p (f a) = p a) : (l.map f).any p = l.any p := by
  induction l with
  | nil => rfl
  | cons a l ih => simp [List.any_cons, h a, ih]

/-- Inserting into a sorted list permutes consing. -/
theorem perm_insertSorted (le : α → α → Bool) (a : α) (l : List α) :
    (insertSorted le a l).Perm (a :: l) := by
  induction l with
  | nil => exact List.Perm.refl _
  | cons b l ih =>
    unfold insertSorted
    split
    · exact List.Perm.refl _
    · exact (List.Perm.cons b ih).trans (List.Perm.swap a b l)

/-- `sortBy` permutes its input. -/
theorem perm_sortBy (le : α → α → Bool) (l : List α) : (sortBy le l).Perm l := by
  induction l with
  | nil => exact List.Perm.refl _
  | cons a l ih =>
    exact (perm_insertSorted le a (sortBy le l)).trans (List.Perm.cons a ih)

end Lemmas

/-- Updating the row found by `find?` is found afterwards. -/
theorem find?_update_found (l : List PRRow) (pid : String) (pr pr' : PRRow)
    (hfind : l.find? (fun p => p.prId == pid) = some pr) (hid : pr'.prId = pid) :
    (l.map (fun p => if p.prId == pid then pr' else p)).find? (fun p => p.prId == pid)
      = some pr' := by
  rw [find?_map_pred (fun p => p.prId == pid) _ l ?hp, hfind]
  · have hp : pr.prId = pid := by simpa using List.find?_some hfind
    simp [hp]
  case hp =>
    intro a
    by_cases h : (a.prId == pid) = true
    · simp [h, hid]
    · simp [h]

/-- Unfolding of `repoMergePR` when the PR exists and is not merged. -/
theorem repoMergePR_open (db : DB) (pid : String) (pr : PRRow)
    (hpr : lookupPR db pid = some pr) (hne : (pr.status == "MERGED") = false) :
    repoMergePR db pid =
      (.ok { pr with status := "MERGED", mergedAt := some db.now },
       { db with
          pullRequests := db.pullRequests.map (fun p =>
            if p.prId == pid then { pr with status := "MERGED", mergedAt := some db.now } else p)
          now := db.now + 1 }) := by
  unfold repoMergePR
  rw [hpr]
  simp [hne]

/-- Unfolding of `repoMergePR` when the PR is already merged. -/
theorem repoMergePR_merged (db : DB) (pid : String) (pr : PRRow)
    (hpr : lookupPR db pid = some pr) (hm : (pr.status == "MERGED") = true) :
    repoMergePR db pid = (.ok pr, db) := by
  unfold repoMergePR
  rw [hpr]
  simp [hm]

/-- C1.  `MergePR` is `NotFound` on a missing id; on an OPEN PR it sets
status `MERGED` and stamps the merge time; on an already-`MERGED` PR it
succeeds returning the stored record with the state unchanged; and
merging twice yields the same status and merge timestamp both times. -/
theorem C1_mergePR (db : DB) (pid : String) :
    (lookupPR db pid = none → repoMergePR db pid = (.error .notFound, db)) ∧
    (∀ pr, lookupPR db pid = some pr → pr.status = "OPEN" →
      (repoMergePR db pid).1 = .ok { pr with status := "MERGED", mergedAt := some db.now } ∧
      lookupPR (repoMergePR db pid).2 pid
        = some { pr with status := "MERGED", mergedAt := some db.now }) ∧
    (∀ pr, lookupPR db pid = some pr → pr.status = "MERGED" →
      repoMergePR db pid = (.ok pr, db)) ∧
    (∀ pr, lookupPR db pid = some pr → pr.status = "OPEN" →
      ∃ pr1, (repoMergePR db pid).1 = .ok pr1 ∧ pr1.status = "MERGED" ∧
        repoMergePR (repoMergePR db pid).2 pid = (.ok pr1, (repoMergePR db pid).2)) := by
  refine ⟨?_, ?_, ?_, ?_⟩
  · intro h
    unfold repoMergePR
    rw [h]
  · intro pr hpr hst
    have hne : (pr.status == "MERGED") = false := by rw [hst]; rfl
    rw [repoMergePR_open db pid pr hpr hne]
    exact ⟨rfl, find?_update_found _ _ _ _ hpr (by simpa using List.find?_some hpr)⟩
  · intro pr hpr hst
    exact repoMergePR_merged db pid pr hpr (by rw [hst]; rfl)
  · intro pr hpr hst
    have hne : (pr.status == "MERGED") = false := by rw [hst]; rfl
    refine ⟨{ pr with status := "MERGED", mergedAt := some db.now }, ?_, rfl, ?_⟩
    · rw [repoMergePR_open db pid pr hpr hne]
    · have hlook :
          lookupPR (repoMergePR db pid).2 pid
            = some { pr with status := "MERGED", mergedAt := some db.now } := by
        rw [repoMergePR_open db pid pr hpr hne]
        exact find?_update_found _ _ _ _ hpr (by simpa using List.find?_some hpr)
      exact repoMergePR_merged _ _ _ hlook rfl

/-- Witness for C1 at a concrete open PR. -/
theorem C1_mergePR_witness :
    (repoMergePR dbW1 "p1").1
      = .ok ⟨"p1", "T", "au", "MERGED", 0, some 1⟩ ∧
    (∃ pr1, (repoMergePR dbW1 "p1").1 = .ok pr1 ∧ pr1.status = "MERGED" ∧
      repoMergePR (repoMergePR dbW1 "p1").2 "p1" = (.ok pr1, (repoMergePR dbW1 "p1").2)) :=
  ⟨((C1_mergePR dbW1 "p1").2.1 ⟨"p1", "T", "au", "OPEN", 0, none⟩ (by decide) rfl).1,
   (C1_mergePR dbW1 "p1").2.2.2 ⟨"p1", "T", "au", "OPEN", 0, none⟩ (by decide) rfl⟩

/-- Deactivating a reviewer row changes no primary key, so the
key-existence test is unchanged. -/
theorem hasReviewerRow_deactivate (db : DB) (pid oldUid pid2 uid : String) :
    hasReviewerRow (deactivateOld db pid oldUid) pid2 uid = hasReviewerRow db pid2 uid := by
  unfold hasReviewerRow deactivateOld
  exact any_map_pred _ _ _ (fun r => by
    by_cases h : (r.prId == pid && r.userId == oldUid) = true <;> simp [h])

/-- Unfolding of `repoReassignReviewer` past the three pre-checks and the
author-team lookup: the result is decided by the candidate selection and
the reviewer insert. -/
theorem repoReassignReviewer_sel (db : DB) (pid oldUid : String) (pr : PRRow)
    (tm : TeamMemberRow)
    (hpr : lookupPR db pid = some pr)
    (hm : (pr.status == "MERGED") = false)
    (hass : isAssignedActive db pid oldUid = true)
    (htm : db.teamMembers.find? (fun t => t.userId == pr.authorId) = some tm) :
    repoReassignReviewer db pid oldUid =
      match reassignCandidate db tm.teamId pr.authorId oldUid pid with
      | none => (.error .noCandidate, db)
      | some newU =>
        match insertReviewer (deactivateOld db pid oldUid) pid newU.id true with
        | none => (.error .infra, db)
        | some rs =>
          (.ok newU.id, { deactivateOld db pid oldUid with reviewers := rs, now := db.now + 1 }) := by
  unfold repoReassignReviewer
  rw [hpr]
  simp [hm, hass, htm]

/-- C2 counterexample: at `dbC2` every pre-check passes and an eligible
replacement (per the replacement-candidate eligibility) exists — `r2` —
yet the call neither succeeds nor returns a typed error: the leftover
inactive `(p1, r2)` row makes the insert violate the primary key, so the
call fails with the unclassified `infra` error. -/
theorem C2_reassign_counterexample :
    repoReassignReviewer dbC2 "p1" "r1" = (.error .infra, dbC2) ∧
    dbC2.users.any (eligibleReplacement dbC2 1 "au" "r1" "p1") = true := by
  constructor
  · decide
  · decide

/-- C2 amended: `ReassignReviewer` checks in order `NotFound`, `PRMerged`
(before the assignment check), `NotAssigned`, `NoCandidate`; it succeeds
when the selected replacement has no leftover assignment row on the PR
(otherwise the insert fails with an unclassified error, see C10). -/
theorem C2_reassign_error_order (db : DB) (pid oldUid : String) :
    (lookupPR db pid = none →
      repoReassignReviewer db pid oldUid = (.error .notFound, db)) ∧
    (∀ pr, lookupPR db pid = some pr → pr.status = "MERGED" →
      repoReassignReviewer db pid oldUid = (.error .prMerged, db)) ∧
    (∀ pr, lookupPR db pid = some pr → pr.status ≠ "MERGED" →
      isAssignedActive db pid oldUid = false →
      repoReassignReviewer db pid oldUid = (.error .notAssigned, db)) ∧
    (∀ pr tm, lookupPR db pid = some pr → pr.status ≠ "MERGED" →
      isAssignedActive db pid oldUid = true →
      db.teamMembers.find? (fun t => t.userId == pr.authorId) = some tm →
      reassignCandidate db tm.teamId pr.authorId oldUid pid = none →
      repoReassignReviewer db pid oldUid = (.error .noCandidate, db)) ∧
    (∀ pr tm u, lookupPR db pid = some pr → pr.status ≠ "MERGED" →
      isAssignedActive db pid oldUid = true →
      db.teamMembers.find? (fun t => t.userId == pr.authorId) = some tm →
      reassignCandidate db tm.teamId pr.authorId oldUid pid = some u →
      hasReviewerRow db pid u.id = false →
      ∃ db1, repoReassignReviewer db pid oldUid = (.ok u.id, db1)) := by
  refine ⟨?_, ?_, ?_, ?_, ?_⟩
  · intro h
    unfold repoReassignReviewer
    rw [h]
  · intro pr hpr hst
    unfold repoReassignReviewer
    rw [hpr]
    simp [hst]
  · intro pr hpr hst hass
    unfold repoReassignReviewer
    rw [hpr]
    simp [beq_eq_false_iff_ne.mpr hst, hass]
  · intro pr tm hpr hst hass htm hcand
    have h := repoReassignReviewer_sel db pid oldUid pr tm hpr (beq_eq_false_iff_ne.mpr hst)
      hass htm
    rw [hcand] at h
    exact h
  · intro pr tm u hpr hst hass htm hcand hrow
    have h := repoReassignReviewer_sel db pid oldUid pr tm hpr (beq_eq_false_iff_ne.mpr hst)
      hass htm
    simp only [hcand] at h
    have hmem : u ∈ db.users := List.mem_of_find?_eq_some hcand
    have hsome : (lookupUser db u.id).isSome = true := by
      unfold lookupUser
      exact List.find?_isSome.mpr ⟨u, hmem, by simp⟩
    obtain ⟨v, hv⟩ := Option.isSome_iff_exists.mp hsome
    have hins : insertReviewer (deactivateOld db pid oldUid) pid u.id true
        = some ((deactivateOld db pid oldUid).reviewers ++ [⟨pid, u.id, true⟩]) := by
      unfold insertReviewer
      rw [hasReviewerRow_deactivate, hrow]
      have hu : lookupUser (deactivateOld db pid oldUid) u.id = some v := hv
      have hp : lookupPR (deactivateOld db pid oldUid) pid = some pr := hpr
      simp [hu, hp]
    rw [hins] at h
    exact ⟨_, h⟩

/-- Witness for C2 (success clause) at a concrete state. -/
theorem C2_reassign_witness :
    ∃ db1, repoReassignReviewer dbW2 "p1" "r1" = (.ok "r2", db1) :=
  (C2_reassign_error_order dbW2 "p1" "r1").2.2.2.2
    ⟨"p1", "T", "au", "OPEN", 0, none⟩ ⟨1, "au"⟩ ⟨"r2", "R2", true⟩
    (by decide) (by decide) (by decide) (by decide) (by decide) (by decide)

/-- C3 counterexample: at `dbC3` the reassignment returns `r2`, who has
one open-PR assignment, even though `r3` is also eligible with zero
open-PR assignments — the replacement is not chosen by the load-balancing
ranking. -/
theorem C3_reassign_counterexample :
    (repoReassignReviewer dbC3 "p1" "r1").1 = .ok "r2" ∧
    eligibleReplacement dbC3 1 "au" "r1" "p1" ⟨"r3", "R3", true⟩ = true ∧
    specOpenLoad dbC3 "r3" < specOpenLoad dbC3 "r2" := by
  refine ⟨by decide, by decide, by decide⟩

/-- C3 amended: a successful reassignment returns the first user in table
order that satisfies the replacement eligibility (teammate of the PR's
author, active, not the author, not the departing reviewer, not already
an active reviewer of the PR); no load ordering is applied. -/
theorem C3_replacement_first_eligible (db : DB) (pid oldUid newUid : String)
    (h : (repoReassignReviewer db pid oldUid).1 = .ok newUid) :
    ∃ pr tm u, lookupPR db pid = some pr ∧
      db.teamMembers.find? (fun t => t.userId == pr.authorId) = some tm ∧
      db.users.find? (eligibleReplacement db tm.teamId pr.authorId oldUid pid) = some u ∧
      u ∈ db.users ∧ newUid = u.id ∧
      eligibleReplacement db tm.teamId pr.authorId oldUid pid u = true := by
  unfold repoReassignReviewer at h
  split at h
  · simp at h
  next pr hpr =>
    split at h
    · simp at h
    split at h
    · simp at h
    split at h
    · simp at h
    next tm htm =>
      split at h
      · simp at h
      next newU hcand =>
        split at h
        · simp at h
        next rs hins =>
          simp only [Except.ok.injEq] at h
          unfold reassignCandidate at hcand
          exact ⟨pr, tm, newU, hpr, htm, hcand, List.mem_of_find?_eq_some hcand,
            h.symm, List.find?_some hcand⟩

/-- Witness for C3 (amended) at a concrete state. -/
theorem C3_replacement_witness :
    ∃ pr tm u, lookupPR dbW3 "q1" = some pr ∧
      dbW3.teamMembers.find? (fun t => t.userId == pr.authorId) = some tm ∧
      dbW3.users.find? (eligibleReplacement dbW3 tm.teamId pr.authorId "ra" "q1") = some u ∧
      u ∈ dbW3.users ∧ "rb" = u.id ∧
      eligibleReplacement dbW3 tm.teamId pr.authorId "ra" "q1" u = true :=
  C3_replacement_first_eligible dbW3 "q1" "ra" "rb" (by decide)

/-- C4 failing input: at `dbC4` the author is inactive and alone in the
team; `CreatePR` fails with `NoCandidate`, yet the datastore is not left
in its pre-call state — the author's `active` flag has been flipped to
true by the lookup-via-`SetUserActive` and is not rolled back. -/
theorem C4_createPR_not_restored :
    (svcCreatePR dbC4 "p1" "T" "a1").1 = .error .noCandidate ∧
    (svcCreatePR dbC4 "p1" "T" "a1").2 ≠ dbC4 ∧
    lookupUser (svcCreatePR dbC4 "p1" "T" "a1").2 "a1" = some ⟨"a1", "A", true⟩ ∧
    lookupUser dbC4 "a1" = some ⟨"a1", "A", false⟩ := by
  refine ⟨by decide, by decide, by decide, by decide⟩

/-- C5 failing input: at `dbC5`, user `b` holds two active assignments on
merged PRs (spec load 0) and user `a` one on an open PR (spec load 1);
the claim predicts `b` as sole candidate, but `GetCandidateReviewers`
counts merged-PR assignments as load and returns `a`. -/
theorem C5_candidates_count_merged :
    getCandidateReviewers dbC5 "t" 1 = ["a"] ∧
    specOpenLoad dbC5 "b" = 0 ∧
    specOpenLoad dbC5 "a" = 1 ∧
    candLoad dbC5 "b" "t" = 2 ∧
    candLoad dbC5 "a" "t" = 1 := by
  refine ⟨by decide, by decide, by decide, by decide, by decide⟩

/-- C6 failing input: at `dbC6` the author is inactive, yet `CreatePR`
succeeds (assigning `r1`) and, as a side effect, activates the author —
the inactive-author check is dead code because the author lookup is a
`SetUserActive(authorID, true)` write. -/
theorem C6_inactive_author_creates :
    (svcCreatePR dbC6 "p1" "T" "a1").1
      = .ok (⟨"p1", "T", "a1", "OPEN", 1, none⟩, [⟨"r1", "R1", true⟩]) ∧
    lookupUser (svcCreatePR dbC6 "p1" "T" "a1").2 "a1" = some ⟨"a1", "A", true⟩ ∧
    lookupUser dbC6 "a1" = some ⟨"a1", "A", false⟩ := by
  refine ⟨by decide, by decide, by decide⟩

/-- C10.  When every pre-check passes and the selected replacement
already has a (necessarily inactive) assignment row on the PR, the insert
violates the `(pr_id, user_id)` primary key: the call returns the
unclassified `infra` error — none of the typed domain errors — and the
transaction rolls back, leaving the state unchanged. -/
theorem C10_former_reviewer_conflict (db : DB) (pid oldUid : String) (pr : PRRow)
    (tm : TeamMemberRow) (u : UserRow)
    (hpr : lookupPR db pid = some pr)
    (hst : pr.status ≠ "MERGED")
    (hass : isAssignedActive db pid oldUid = true)
    (htm : db.teamMembers.find? (fun t => t.userId == pr.authorId) = some tm)
    (hcand : reassignCandidate db tm.teamId pr.authorId oldUid pid = some u)
    (hrow : hasReviewerRow db pid u.id = true) :
    repoReassignReviewer db pid oldUid = (.error .infra, db) := by
  have h := repoReassignReviewer_sel db pid oldUid pr tm hpr (beq_eq_false_iff_ne.mpr hst)
    hass htm
  simp only [hcand] at h
  have hins : insertReviewer (deactivateOld db pid oldUid) pid u.id true = none := by
    unfold insertReviewer
    rw [hasReviewerRow_deactivate, hrow]
    simp
  rw [hins] at h
  exact h

/-- Witness for C10 at a concrete state. -/
theorem C10_former_reviewer_witness :
    repoReassignReviewer dbW10 "px" "rx" = (.error .infra, dbW10) :=
  C10_former_reviewer_conflict dbW10 "px" "rx"
    ⟨"px", "PX", "ax", "OPEN", 0, none⟩ ⟨1, "ax"⟩ ⟨"ry", "RY", true⟩
    (by decide) (by decide) (by decide) (by decide) (by decide) (by decide)

/-- Sums of a pointwise sum of maps. -/
theorem sum_map_add {K : Type} (l : List K) (g h : K → Nat) :
    (l.map (fun k => g k + h k)).sum = (l.map g).sum + (l.map h).sum := by
  induction l with
  | nil => rfl
  | cons a l ih =>
    simp only [List.map_cons, List.sum_cons, ih]
    omega

section Counting

variable {K R : Type} [DecidableEq K]

/-- Sum of an indicator over a list not containing the point is zero. -/
theorem sum_indicator_zero (keys : List K) (x : K) (hx : x ∉ keys) :
    (keys.map (fun k => if x = k then 1 else 0)).sum = 0 := by
  induction keys with
  | nil => rfl
  | cons a keys ih =>
    simp only [List.mem_cons, not_or] at hx
    simp [hx.1, ih hx.2]

/-- Sum of an indicator over a duplicate-free list containing the point
is one. -/
theorem sum_indicator_one (keys : List K) (x : K) (hk : keys.Nodup) (hx : x ∈ keys) :
    (keys.map (fun k => if x = k then 1 else 0)).sum = 1 := by
  induction keys with
  | nil => cases hx
  | cons a keys ih =>
    rcases List.mem_cons.mp hx with h | h
    · subst h
      simp [sum_indicator_zero keys x (List.nodup_cons.mp hk).1]
    · have hxa : ¬(x = a) := by
        intro e
        exact (List.nodup_cons.mp hk).1 (e ▸ h)
      simp [hxa, ih (List.nodup_cons.mp hk).2 h]

/-- Length of a filtered cons as an indicator plus the tail count. -/
theorem length_filter_cons (p : R → Bool) (r : R) (A : List R) :
    ((r :: A).filter p).length = (if p r = true then 1 else 0) + (A.filter p).length := by
  by_cases h : p r = true <;> simp [List.filter_cons, h, Nat.add_comm]

/-- Partitioning a list by a duplicate-free, covering list of keys counts
every element exactly once. -/
theorem sum_counts_eq_length (keys : List K) (A : List R) (f : R → K)
    (hk : keys.Nodup) (hc : ∀ r ∈ A, f r ∈ keys) :
    (keys.map (fun k => (A.filter (fun r => f r == k)).length)).sum = A.length := by
  induction A with
  | nil => simp
  | cons r A ih =>
    have step : keys.map (fun k => ((r :: A).filter (fun x => f x == k)).length)
        = keys.map (fun k =>
            (if f r = k then 1 else 0) + (A.filter (fun x => f x == k)).length) := by
      refine List.map_congr_left (fun k _ => ?_)
      rw [length_filter_cons]
      congr 1
      by_cases h : f r = k <;> simp [h]
    rw [step, sum_map_add,
      sum_indicator_one keys (f r) hk (hc r (List.mem_cons_self r A)),
      ih (fun x hx => hc x (List.mem_cons_of_mem r hx))]
    simp [Nat.add_comm]

end Counting

/-- The per-user counts of `GetStats`, before the descending sort. -/
theorem getStats_users_eq (db : DB) :
    (getStats db).userAssignmentCounts
      = sortBy (fun a b => decide (b.count ≤ a.count))
          (db.users.map (fun u =>
            UserAssignmentCount.mk u.id u.username (activeAssignCount db u.id))) := rfl

/-- The per-PR counts of `GetStats`, before the descending sort. -/
theorem getStats_prs_eq (db : DB) :
    (getStats db).prAssignmentCounts
      = sortBy (fun a b => decide (b.count ≤ a.count))
          (db.pullRequests.map (fun p =>
            PRAssignmentCount.mk p.prId p.title (prAssignCount db p.prId))) := rfl

/-- The grand total of `GetStats` accumulates the user counts. -/
theorem getStats_total_eq (db : DB) :
    (getStats db).totalAssignments
      = ((getStats db).userAssignmentCounts.map (fun c => c.count)).sum := rfl

/-- Sum of the per-user counts: every active assignment row is counted
once, provided user ids are unique and active rows reference existing
users. -/
theorem sum_user_counts (db : DB)
    (hu : (db.users.map (fun u => u.id)).Nodup)
    (hfk : ∀ r ∈ db.reviewers, r.isActive = true → ∃ u ∈ db.users, u.id = r.userId) :
    (db.users.map (fun u => activeAssignCount db u.id)).sum
      = (db.reviewers.filter (fun r => r.isActive)).length := by
  have hform : db.users.map (fun u => activeAssignCount db u.id)
      = (db.users.map (fun u => u.id)).map (fun k =>
          ((db.reviewers.filter (fun r => r.isActive)).filter
            (fun r => r.userId == k)).length) := by
    rw [List.map_map]
    refine List.map_congr_left (fun u _ => ?_)
    show activeAssignCount db u.id
        = ((db.reviewers.filter (fun r => r.isActive)).filter
            (fun r => r.userId == u.id)).length
    unfold activeAssignCount
    rw [List.filter_filter]
  rw [hform]
  refine sum_counts_eq_length _ _ _ hu (fun r hr => ?_)
  have hr' := List.mem_filter.mp hr
  obtain ⟨u, hu', he⟩ := hfk r hr'.1 hr'.2
  exact List.mem_map.mpr ⟨u, hu', he⟩

/-- Sum of the per-PR counts: every active assignment row is counted
once, provided PR ids are unique and active rows reference existing PRs. -/
theorem sum_pr_counts (db : DB)
    (hp : (db.pullRequests.map (fun p => p.prId)).Nodup)
    (hfk : ∀ r ∈ db.reviewers, r.isActive = true → ∃ q ∈ db.pullRequests, q.prId = r.prId) :
    (db.pullRequests.map (fun p => prAssignCount db p.prId)).sum
      = (db.reviewers.filter (fun r => r.isActive)).length := by
  have hform : db.pullRequests.map (fun p => prAssignCount db p.prId)
      = (db.pullRequests.map (fun p => p.prId)).map (fun k =>
          ((db.reviewers.filter (fun r => r.isActive)).filter
            (fun r => r.prId == k)).length) := by
    rw [List.map_map]
    refine List.map_congr_left (fun p _ => ?_)
    show prAssignCount db p.prId
        = ((db.reviewers.filter (fun r => r.isActive)).filter
            (fun r => r.prId == p.prId)).length
    unfold prAssignCount
    rw [List.filter_filter]
  rw [hform]
  refine sum_counts_eq_length _ _ _ hp (fun r hr => ?_)
  have hr' := List.mem_filter.mp hr
  obtain ⟨q, hq', he⟩ := hfk r hr'.1 hr'.2
  exact List.mem_map.mpr ⟨q, hq', he⟩

/-- C8.  Under the schema constraints (unique user ids, unique PR ids,
foreign keys from `reviewers`), `GetStats` covers every user and every
pull request (zero counts included) and its grand total equals both the
sum of the per-user counts and the sum of the per-PR counts. -/
theorem C8_stats_consistent (db : DB)
    (hu : (db.users.map (fun u => u.id)).Nodup)
    (hp : (db.pullRequests.map (fun p => p.prId)).Nodup)
    (hfk : ∀ r ∈ db.reviewers, r.isActive = true →
      (∃ u ∈ db.users, u.id = r.userId) ∧ (∃ q ∈ db.pullRequests, q.prId = r.prId)) :
    (∀ u ∈ db.users, ∃ c ∈ (getStats db).userAssignmentCounts,
      c.userId = u.id ∧ c.count = activeAssignCount db u.id) ∧
    (∀ q ∈ db.pullRequests, ∃ c ∈ (getStats db).prAssignmentCounts,
      c.prId = q.prId ∧ c.count = prAssignCount db q.prId) ∧
    (getStats db).totalAssignments
      = ((getStats db).userAssignmentCounts.map (fun c => c.count)).sum ∧
    (getStats db).totalAssignments
      = ((getStats db).prAssignmentCounts.map (fun c => c.count)).sum := by
  refine ⟨?_, ?_, getStats_total_eq db, ?_⟩
  · intro u hu'
    refine ⟨UserAssignmentCount.mk u.id u.username (activeAssignCount db u.id), ?_, rfl, rfl⟩
    rw [getStats_users_eq]
    exact (List.Perm.mem_iff (perm_sortBy _ _)).mpr
      (List.mem_map_of_mem _ hu')
  · intro q hq'
    refine ⟨PRAssignmentCount.mk q.prId q.title (prAssignCount db q.prId), ?_, rfl, rfl⟩
    rw [getStats_prs_eq]
    exact (List.Perm.mem_iff (perm_sortBy _ _)).mpr
      (List.mem_map_of_mem _ hq')
  · rw [getStats_total_eq, getStats_users_eq, getStats_prs_eq]
    have hpu : ((sortBy (fun a b => decide (b.count ≤ a.count))
        (db.users.map (fun u =>
          UserAssignmentCount.mk u.id u.username (activeAssignCount db u.id)))).map
            (fun c => c.count)).sum
        = (db.users.map (fun u => activeAssignCount db u.id)).sum := by
      rw [List.Perm.sum_eq (List.Perm.map _ (perm_sortBy _ _)), List.map_map]
      rfl
    have hpp : ((sortBy (fun a b => decide (b.count ≤ a.count))
        (db.pullRequests.map (fun p =>
          PRAssignmentCount.mk p.prId p.title (prAssignCount db p.prId)))).map
            (fun c => c.count)).sum
        = (db.pullRequests.map (fun p => prAssignCount db p.prId)).sum := by
      rw [List.Perm.sum_eq (List.Perm.map _ (perm_sortBy _ _)), List.map_map]
      rfl
    rw [hpu, hpp, sum_user_counts db hu (fun r hr ha => (hfk r hr ha).1),
      sum_pr_counts db hp (fun r hr ha => (hfk r hr ha).2)]

/-- Witness for C8 at a concrete state. -/
theorem C8_stats_witness :
    (getStats dbC5).totalAssignments
        = ((getStats dbC5).prAssignmentCounts.map (fun c => c.count)).sum ∧
    (getStats dbC5).totalAssignments = 3 :=
  ⟨(C8_stats_consistent dbC5 (by decide) (by decide) (by decide)).2.2.2, by decide⟩

/-- `SetUserActive(a, true)` on an existing user returns the activated
row and commits `setActiveDB`. -/
theorem setUserActive_post (db : DB) (a : String) (au : UserRow)
    (h : lookupUser db a = some au) :
    repoSetUserActive db a true = (.ok { au with isActive := true }, setActiveDB db a) := by
  unfold repoSetUserActive setActiveDB
  rw [h]

/-- User lookup after the activation map. -/
theorem lookupUser_setActive (db : DB) (a x : String) :
    lookupUser (setActiveDB db a) x
      = (lookupUser db x).map (fun v => if v.id == a then { v with isActive := true } else v) := by
  unfold lookupUser setActiveDB
  exact find?_map_pred _ _ _ (fun v => by
    by_cases h : (v.id == a) = true <;> simp [h])

/-- A filter is unchanged by a map that neither changes the predicate nor
moves any element the predicate keeps. -/
theorem filter_map_eq_filter {α : Type} (g : α → α) (P : α → Bool) (l : List α)
    (h1 : ∀ a, P (g a) = P a) (h2 : ∀ a, P a = true → g a = a) :
    (l.map g).filter P = l.filter P := by
  induction l with
  | nil => rfl
  | cons a l ih =>
    by_cases h : P a = true
    · simp [List.filter_cons, h, h1 a, h2 a h, ih]
    · have hf : P a = false := by simpa using h
      simp [List.filter_cons, h1 a, hf, ih]

/-- Activating the author does not change the candidate-eligible rows:
the author is filtered out by id, everyone else is untouched. -/
theorem eligibleCandidates_setActive (db : DB) (a : String) :
    eligibleCandidates (setActiveDB db a) a = eligibleCandidates db a := by
  show (db.users.map (fun v => if v.id == a then { v with isActive := true } else v)).filter
      (fun u => u.isActive && u.id != a && (sharedTeamCount db u.id a != 0))
    = db.users.filter
      (fun u => u.isActive && u.id != a && (sharedTeamCount db u.id a != 0))
  refine filter_map_eq_filter _ _ _ ?_ ?_
  · intro v
    by_cases h : (v.id == a) = true
    · have hne : (v.id != a) = false := by simp [bne, h]
      simp [h, hne]
    · simp [h]
  · intro v hv
    simp only [Bool.and_eq_true, bne_iff_ne, ne_eq] at hv
    simp [beq_eq_false_iff_ne.mpr hv.1.2]

/-- Activating the author does not change the candidate list. -/
theorem getCandidateReviewers_setActive (db : DB) (a : String) (n : Nat) :
    getCandidateReviewers (setActiveDB db a) a n = getCandidateReviewers db a n := by
  unfold getCandidateReviewers
  rw [eligibleCandidates_setActive]
  rfl

/-- Every returned candidate is an active user, distinct from the
author. -/
theorem mem_getCandidateReviewers (db : DB) (a : String) (n : Nat) (x : String)
    (hx : x ∈ getCandidateReviewers db a n) :
    ∃ u ∈ db.users, u.id = x ∧ u.isActive = true ∧ u.id ≠ a := by
  unfold getCandidateReviewers at hx
  obtain ⟨u, hu, he⟩ := List.mem_map.mp hx
  have h1 : u ∈ sortBy (candLE db a) (eligibleCandidates db a) :=
    (List.take_sublist n _).subset hu
  have h2 : u ∈ eligibleCandidates db a := (List.Perm.mem_iff (perm_sortBy _ _)).mp h1
  have h3 := List.mem_filter.mp h2
  have h4 := h3.2
  simp only [Bool.and_eq_true, bne_iff_ne, ne_eq] at h4
  exact ⟨u, h3.1, he, h4.1.1, h4.1.2⟩

/-- The candidate ids are distinct when user ids are. -/
theorem nodup_getCandidateReviewers (db : DB) (a : String) (n : Nat)
    (hu : (db.users.map (fun u => u.id)).Nodup) :
    (getCandidateReviewers db a n).Nodup := by
  unfold getCandidateReviewers
  have h1 : ((eligibleCandidates db a).map (fun u => u.id)).Nodup :=
    hu.sublist (List.Sublist.map (fun u : UserRow => u.id) (List.filter_sublist db.users))
  have h2 : ((sortBy (candLE db a) (eligibleCandidates db a)).map (fun u => u.id)).Nodup :=
    (List.Perm.nodup_iff (List.Perm.map _ (perm_sortBy _ _))).mpr h1
  exact h2.sublist (List.Sublist.map (fun u : UserRow => u.id)
    (List.take_sublist n (sortBy (candLE db a) (eligibleCandidates db a))))

/-- The number of returned candidates is the limit capped by the number
of eligible rows. -/
theorem length_getCandidateReviewers (db : DB) (a : String) (n : Nat) :
    (getCandidateReviewers db a n).length = min n (eligibleCandidates db a).length := by
  unfold getCandidateReviewers
  rw [List.length_map, List.length_take, (perm_sortBy _ _).length_eq]

/-- When no reviewer row mentions the PR, the key-existence test fails. -/
theorem hasReviewerRow_eq_false_of_fresh (db : DB) (pid u : String)
    (h : ∀ r ∈ db.reviewers, r.prId ≠ pid) : hasReviewerRow db pid u = false := by
  unfold hasReviewerRow
  rw [List.any_eq_false]
  intro r hr
  simp [beq_eq_false_iff_ne.mpr (h r hr)]

/-- The reviewer-insert loop succeeds on distinct, existing, unassigned
user ids and appends exactly one active row per id. -/
theorem insertReviewersLoop_append (pid : String) (ids : List String) (db : DB)
    (hids : ids.Nodup)
    (hfree : ∀ u ∈ ids, hasReviewerRow db pid u = false)
    (husers : ∀ u ∈ ids, (lookupUser db u).isSome = true)
    (hpr : (lookupPR db pid).isSome = true) :
    insertReviewersLoop db pid ids
      = some { db with
          reviewers := db.reviewers ++ ids.map (fun u => (⟨pid, u, true⟩ : ReviewerRow)) } := by
  induction ids generalizing db with
  | nil => simp [insertReviewersLoop]
  | cons u ids ih =>
    have hins : insertReviewer db pid u true = some (db.reviewers ++ [⟨pid, u, true⟩]) := by
      unfold insertReviewer
      rw [hfree u (List.mem_cons_self u ids)]
      obtain ⟨v, hv⟩ := Option.isSome_iff_exists.mp (husers u (List.mem_cons_self u ids))
      obtain ⟨q, hq⟩ := Option.isSome_iff_exists.mp hpr
      simp [hv, hq]
    have hu : u ∉ ids := (List.nodup_cons.mp hids).1
    have hfree2 : ∀ x ∈ ids,
        hasReviewerRow { db with reviewers := db.reviewers ++ [⟨pid, u, true⟩] } pid x = false := by
      intro x hx
      show (db.reviewers ++ [(⟨pid, u, true⟩ : ReviewerRow)]).any
        (fun r => r.prId == pid && r.userId == x) = false
      rw [List.any_append]
      have h1 : hasReviewerRow db pid x = false := hfree x (List.mem_cons_of_mem u hx)
      have h2 : ¬(u = x) := fun e => hu (e ▸ hx)
      unfold hasReviewerRow at h1
      simp [h1, beq_eq_false_iff_ne.mpr h2]
    have husers2 : ∀ x ∈ ids,
        (lookupUser { db with reviewers := db.reviewers ++ [⟨pid, u, true⟩] } x).isSome = true :=
      fun x hx => husers x (List.mem_cons_of_mem u hx)
    have hpr2 : (lookupPR { db with reviewers := db.reviewers ++ [⟨pid, u, true⟩] } pid).isSome
        = true := hpr
    simp only [insertReviewersLoop, hins]
    rw [ih { db with reviewers := db.reviewers ++ [⟨pid, u, true⟩] }
      (List.nodup_cons.mp hids).2 hfree2 husers2 hpr2]
    simp

/-- `CreatePR` commits the PR row and one active reviewer row per
candidate when the id is fresh, the author exists and the candidate ids
are distinct existing users not yet on the PR. -/
theorem repoCreatePR_success (db : DB) (pid title a : String) (ids : List String)
    (hfresh : lookupPR db pid = none)
    (hau : (lookupUser db a).isSome = true)
    (hids : ids.Nodup)
    (hfree : ∀ r ∈ db.reviewers, r.prId ≠ pid)
    (husers : ∀ u ∈ ids, (lookupUser db u).isSome = true) :
    repoCreatePR db pid title a ids
      = (.ok (), { db with
          pullRequests := db.pullRequests ++ [⟨pid, title, a, "OPEN", db.now, none⟩]
          reviewers := db.reviewers ++ ids.map (fun u => (⟨pid, u, true⟩ : ReviewerRow))
          now := db.now + 1 }) := by
  have hfree2 : ∀ x ∈ ids, hasReviewerRow
      { db with pullRequests := db.pullRequests ++ [⟨pid, title, a, "OPEN", db.now, none⟩] }
        pid x = false :=
    fun x _ => hasReviewerRow_eq_false_of_fresh db pid x hfree
  have husers2 : ∀ x ∈ ids, (lookupUser
      { db with pullRequests := db.pullRequests ++ [⟨pid, title, a, "OPEN", db.now, none⟩] }
        x).isSome = true :=
    fun x hx => husers x hx
  have hpr2 : (lookupPR
      { db with pullRequests := db.pullRequests ++ [⟨pid, title, a, "OPEN", db.now, none⟩] }
        pid).isSome = true := by
    show ((db.pullRequests ++ [(⟨pid, title, a, "OPEN", db.now, none⟩ : PRRow)]).find?
      (fun p => p.prId == pid)).isSome = true
    rw [List.find?_append]
    have h0 : db.pullRequests.find? (fun p => p.prId == pid) = none := hfresh
    rw [h0]
    simp [List.find?_cons]
  have hloop := insertReviewersLoop_append pid ids
    { db with pullRequests := db.pullRequests ++ [⟨pid, title, a, "OPEN", db.now, none⟩] }
    hids hfree2 husers2 hpr2
  have hc1 : ¬((lookupPR db pid).isSome = true) := by
    rw [hfresh]
    exact Bool.false_ne_true
  have hc2 : ¬((lookupUser db a).isNone = true) := by
    obtain ⟨v, hv⟩ := Option.isSome_iff_exists.mp hau
    rw [hv]
    exact Bool.false_ne_true
  unfold repoCreatePR
  rw [if_neg hc1, if_neg hc2]
  simp only [hloop]

/-- The active reviewer ids of a freshly created PR are exactly the
inserted ids. -/
theorem activeIds_append_fresh (old : List ReviewerRow) (pid : String) (ids : List String)
    (h : ∀ r ∈ old, r.prId ≠ pid) :
    ((old ++ ids.map (fun u => (⟨pid, u, true⟩ : ReviewerRow))).filter
      (fun r => r.prId == pid && r.isActive)).map (fun r => r.userId) = ids := by
  rw [List.filter_append,
    List.filter_eq_nil_iff.mpr (fun r hr => by simp [beq_eq_false_iff_ne.mpr (h r hr)]),
    List.nil_append,
    List.filter_eq_self.mpr (fun r hr => by
      obtain ⟨u, hu, he⟩ := List.mem_map.mp hr
      subst he
      simp),
    List.map_map]
  have : ((fun r : ReviewerRow => r.userId) ∘ fun u => (⟨pid, u, true⟩ : ReviewerRow))
      = fun u => u := rfl
  rw [this, List.map_id']

/-- `ServiceImpl.CreatePR` after the author lookup: the author has been
activated (so the inactive-author branch is dead) and the rest of the
operation runs on the committed `setActiveDB` state. -/
theorem svcCreatePR_stage (db : DB) (pid title a : String) (au : UserRow)
    (hauthor : lookupUser db a = some au) :
    svcCreatePR db pid title a =
      (if (getCandidateReviewers (setActiveDB db a) a 2).isEmpty then
        (.error .noCandidate, setActiveDB db a)
      else
        match repoCreatePR (setActiveDB db a) pid title a
            (getCandidateReviewers (setActiveDB db a) a 2) with
        | (.error e, db2) => (.error e, db2)
        | (.ok _, db2) =>
          match repoGetPR db2 pid with
          | .error e => (.error e, db2)
          | .ok res => (.ok res, db2)) := by
  unfold svcCreatePR
  rw [setUserActive_post db a au hauthor]
  rfl

/-- C9.  With a fresh PR id and an existing author: two or more eligible
candidates give a PR with exactly two active reviewers, exactly one
eligible candidate gives a PR with exactly one active reviewer (success,
not an error), and zero eligible candidates fail with `NoCandidate` and
create no PR. -/
theorem C9_createPR_reviewer_counts (db : DB) (pid title a : String) (au : UserRow)
    (hu : (db.users.map (fun u => u.id)).Nodup)
    (hauthor : lookupUser db a = some au)
    (hfresh : lookupPR db pid = none)
    (hnorows : ∀ r ∈ db.reviewers, r.prId ≠ pid) :
    (2 ≤ (eligibleCandidates db a).length →
      ∃ res db1, svcCreatePR db pid title a = (.ok res, db1) ∧
        (activeReviewerIds db1 pid).length = 2) ∧
    ((eligibleCandidates db a).length = 1 →
      ∃ res db1, svcCreatePR db pid title a = (.ok res, db1) ∧
        (activeReviewerIds db1 pid).length = 1) ∧
    ((eligibleCandidates db a).length = 0 →
      ∃ db1, svcCreatePR db pid title a = (.error .noCandidate, db1) ∧
        lookupPR db1 pid = none) := by
  have hstage := svcCreatePR_stage db pid title a au hauthor
  rw [getCandidateReviewers_setActive db a 2] at hstage
  have hlen : (getCandidateReviewers db a 2).length = min 2 (eligibleCandidates db a).length :=
    length_getCandidateReviewers db a 2
  have main : (eligibleCandidates db a).length ≠ 0 →
      ∃ res db1, svcCreatePR db pid title a = (.ok res, db1) ∧
        (activeReviewerIds db1 pid).length = min 2 (eligibleCandidates db a).length := by
    intro he
    have hne : (getCandidateReviewers db a 2).isEmpty = false := by
      cases hc : getCandidateReviewers db a 2 with
      | nil =>
        exfalso
        rw [hc] at hlen
        have h0' : min 2 (eligibleCandidates db a).length = 0 := by simpa using hlen.symm
        rcases Nat.min_eq_zero_iff.mp h0' with h2 | h0
        · omega
        · exact he h0
      | cons x xs => rfl
    have hau2 : (lookupUser (setActiveDB db a) a).isSome = true := by
      rw [lookupUser_setActive, hauthor]
      rfl
    have husers2 : ∀ u ∈ getCandidateReviewers db a 2,
        (lookupUser (setActiveDB db a) u).isSome = true := by
      intro x hx
      obtain ⟨v, hv, hid, _, _⟩ := mem_getCandidateReviewers db a 2 x hx
      have hs : (lookupUser db x).isSome = true :=
        List.find?_isSome.mpr ⟨v, hv, by simp [hid]⟩
      obtain ⟨w, hw⟩ := Option.isSome_iff_exists.mp hs
      rw [lookupUser_setActive, hw]
      rfl
    have hcr := repoCreatePR_success (setActiveDB db a) pid title a
      (getCandidateReviewers db a 2) hfresh hau2
      (nodup_getCandidateReviewers db a 2 hu) hnorows husers2
    rw [hstage, if_neg (by rw [hne]; exact Bool.false_ne_true)]
    simp only [hcr]
    have hlook : lookupPR
        { setActiveDB db a with
          pullRequests := (setActiveDB db a).pullRequests
            ++ [⟨pid, title, a, "OPEN", (setActiveDB db a).now, none⟩]
          reviewers := (setActiveDB db a).reviewers
            ++ (getCandidateReviewers db a 2).map (fun u => (⟨pid, u, true⟩ : ReviewerRow))
          now := (setActiveDB db a).now + 1 } pid
        = some ⟨pid, title, a, "OPEN", (setActiveDB db a).now, none⟩ := by
      show (db.pullRequests
        ++ [(⟨pid, title, a, "OPEN", (setActiveDB db a).now, none⟩ : PRRow)]).find?
          (fun p => p.prId == pid) = _
      rw [List.find?_append,
        (show db.pullRequests.find? (fun p => p.prId == pid) = none from hfresh)]
      simp [List.find?_cons]
    have hget : repoGetPR
        { setActiveDB db a with
          pullRequests := (setActiveDB db a).pullRequests
            ++ [⟨pid, title, a, "OPEN", (setActiveDB db a).now, none⟩]
          reviewers := (setActiveDB db a).reviewers
            ++ (getCandidateReviewers db a 2).map (fun u => (⟨pid, u, true⟩ : ReviewerRow))
          now := (setActiveDB db a).now + 1 } pid
        = .ok (⟨pid, title, a, "OPEN", (setActiveDB db a).now, none⟩,
            getPRReviewers
              { setActiveDB db a with
                pullRequests := (setActiveDB db a).pullRequests
                  ++ [⟨pid, title, a, "OPEN", (setActiveDB db a).now, none⟩]
                reviewers := (setActiveDB db a).reviewers
                  ++ (getCandidateReviewers db a 2).map
                      (fun u => (⟨pid, u, true⟩ : ReviewerRow))
                now := (setActiveDB db a).now + 1 } pid) := by
      unfold repoGetPR
      rw [hlook]
    simp only [hget]
    refine ⟨_, _, rfl, ?_⟩
    have hact : activeReviewerIds
        { setActiveDB db a with
          pullRequests := (setActiveDB db a).pullRequests
            ++ [⟨pid, title, a, "OPEN", (setActiveDB db a).now, none⟩]
          reviewers := (setActiveDB db a).reviewers
            ++ (getCandidateReviewers db a 2).map (fun u => (⟨pid, u, true⟩ : ReviewerRow))
          now := (setActiveDB db a).now + 1 } pid
        = getCandidateReviewers db a 2 :=
      activeIds_append_fresh db.reviewers pid (getCandidateReviewers db a 2) hnorows
    rw [hact]
    exact hlen
  refine ⟨?_, ?_, ?_⟩
  · intro h2
    obtain ⟨res, db1, heq, hl⟩ := main (by omega)
    exact ⟨res, db1, heq, by rw [hl]; exact Nat.min_eq_left h2⟩
  · intro h1
    obtain ⟨res, db1, heq, hl⟩ := main (by omega)
    refine ⟨res, db1, heq, ?_⟩
    rw [hl, h1]
    rfl
  · intro h0
    have hcnil : getCandidateReviewers db a 2 = [] := by
      rw [h0] at hlen
      exact List.length_eq_zero.mp (by omega)
    rw [hstage, if_pos (by rw [hcnil]; rfl)]
    exact ⟨setActiveDB db a, rfl, hfresh⟩

/-- Witness for C9 (single-candidate case) at a concrete state. -/
theorem C9_createPR_witness :
    ∃ res db1, svcCreatePR dbC6 "p1" "T" "a1" = (.ok res, db1) ∧
      (activeReviewerIds db1 "p1").length = 1 :=
  (C9_createPR_reviewer_counts dbC6 "p1" "T" "a1" ⟨"a1", "A", false⟩
    (by decide) (by decide) (by decide) (by decide)).2.1 (by decide)

/-- The empty datastore satisfies the invariants. -/
theorem inv_db0 : Inv db0 :=
  ⟨List.nodup_nil, List.nodup_nil, List.nodup_nil,
   fun r hr => absurd hr (List.not_mem_nil r),
   fun r hr => absurd hr (List.not_mem_nil r)⟩

/-- An id-preserving user map keeps the id column unchanged. -/
theorem users_map_ids (users : List UserRow) (g : UserRow → UserRow)
    (hg : ∀ v, (g v).id = v.id) :
    (users.map g).map (fun u => u.id) = users.map (fun u => u.id) := by
  rw [List.map_map]
  exact List.map_congr_left (fun v _ => hg v)

/-- The invariants only see the id column of `users`, so an
id-preserving user map preserves them. -/
theorem inv_users_map (db : DB) (g : UserRow → UserRow) (hg : ∀ v, (g v).id = v.id) (n : Nat)
    (h : Inv db) : Inv { db with users := db.users.map g, now := n } := by
  refine ⟨?_, h.2.1, h.2.2.1, h.2.2.2.1, h.2.2.2.2⟩
  show ((db.users.map g).map (fun u => u.id)).Nodup
  rw [users_map_ids db.users g hg]
  exact h.1

/-- `SetUserActive` preserves the invariants. -/
theorem inv_setUserActive (db : DB) (uid : String) (active : Bool) (h : Inv db) :
    Inv (repoSetUserActive db uid active).2 := by
  unfold repoSetUserActive
  cases hl : lookupUser db uid with
  | none => exact h
  | some u =>
    exact inv_users_map db _ (fun v => by by_cases hv : (v.id == uid) = true <;> simp [hv])
      (db.now + 1) h

/-- The upsert of `CreateTeam` keeps user ids duplicate-free. -/
theorem upsertUser_ids (users : List UserRow) (m : UserRow)
    (h : (users.map (fun u => u.id)).Nodup) :
    ((upsertUser users m).map (fun u => u.id)).Nodup := by
  unfold upsertUser
  split
  · rw [users_map_ids users _ (fun v => by
      by_cases hv : (v.id == m.id) = true <;> simp [hv])]
    exact h
  next hany =>
    rw [List.map_append]
    refine (List.perm_append_singleton _ _).nodup_iff.mpr ?_
    rw [List.nodup_cons]
    refine ⟨?_, h⟩
    intro hmem
    obtain ⟨v, hv, he⟩ := List.mem_map.mp hmem
    exact hany (List.any_eq_true.mpr ⟨v, hv, by simp [he]⟩)

/-- One member step of `CreateTeam` preserves the invariants. -/
theorem inv_addMember (tid : Nat) (acc : DB) (m : UserRow) (h : Inv acc) :
    Inv (addMember tid acc m) :=
  ⟨upsertUser_ids acc.users m h.1, h.2.1, h.2.2.1, h.2.2.2.1, h.2.2.2.2⟩

/-- The member loop of `CreateTeam` preserves the invariants. -/
theorem inv_foldl_addMember (tid : Nat) (members : List UserRow) :
    ∀ acc : DB, Inv acc → Inv (members.foldl (addMember tid) acc) := by
  induction members with
  | nil => exact fun acc h => h
  | cons m members ih =>
    intro acc h
    exact ih (addMember tid acc m) (inv_addMember tid acc m h)

/-- `CreateTeam` preserves the invariants. -/
theorem inv_createTeam (db : DB) (name : String) (members : List UserRow) (h : Inv db) :
    Inv (svcCreateTeam db name members).2 := by
  unfold svcCreateTeam repoCreateTeam
  split
  · exact h
  · have h1 : Inv { db with
        teams := db.teams ++ [⟨db.nextTeamId, name⟩]
        nextTeamId := db.nextTeamId + 1 } :=
      ⟨h.1, h.2.1, h.2.2.1, h.2.2.2.1, h.2.2.2.2⟩
    have h2 := inv_foldl_addMember db.nextTeamId members _ h1
    exact ⟨h2.1, h2.2.1, h2.2.2.1, h2.2.2.2.1, h2.2.2.2.2⟩

/-- Members with equal ids are equal when the mapped id column is
duplicate-free. -/
theorem eq_of_mem_of_nodup_ids (l : List PRRow) (hn : (l.map (fun p => p.prId)).Nodup)
    (p q : PRRow) (hp : p ∈ l) (hq : q ∈ l) (he : p.prId = q.prId) : p = q :=
  List.inj_on_of_nodup_map hn hp hq he

/-- A found PR is the only row with its id under the primary key. -/
theorem lookupPR_unique (db : DB) (pid : String) (pr : PRRow)
    (hn : (db.pullRequests.map (fun p => p.prId)).Nodup)
    (h : lookupPR db pid = some pr) :
    ∀ p ∈ db.pullRequests, p.prId = pid → p = pr := by
  intro p hp hpe
  have hmem : pr ∈ db.pullRequests := List.mem_of_find?_eq_some h
  have hpr : pr.prId = pid := by simpa using List.find?_some h
  exact eq_of_mem_of_nodup_ids db.pullRequests hn p pr hp hmem (hpe.trans hpr.symm)

/-- An id-preserving PR map keeps the id column unchanged. -/
theorem prs_map_ids (l : List PRRow) (g : PRRow → PRRow)
    (hg : ∀ p ∈ l, (g p).prId = p.prId) :
    (l.map g).map (fun p => p.prId) = l.map (fun p => p.prId) := by
  rw [List.map_map]
  exact List.map_congr_left (fun p hp => hg p hp)

/-- `MergePR` preserves the invariants. -/
theorem inv_mergePR (db : DB) (pid : String) (h : Inv db) :
    Inv (svcMergePR db pid).2 := by
  show Inv (repoMergePR db pid).2
  cases hl : lookupPR db pid with
  | none =>
    have he : repoMergePR db pid = (.error .notFound, db) := by
      unfold repoMergePR
      rw [hl]
    rw [he]
    exact h
  | some pr =>
    by_cases hm : (pr.status == "MERGED") = true
    · rw [repoMergePR_merged db pid pr hl hm]
      exact h
    · rw [repoMergePR_open db pid pr hl ((Bool.not_eq_true _) ▸ hm)]
      have hid : ∀ p : PRRow,
          ((if p.prId == pid then { pr with status := "MERGED", mergedAt := some db.now }
            else p) : PRRow).prId = p.prId := by
        intro p
        by_cases hp : (p.prId == pid) = true
        · have h1 : p.prId = pid := by simpa using hp
          have h2 : pr.prId = pid := by simpa using List.find?_some hl
          simp [hp, h1, h2]
        · simp [hp]
      have hauth : ∀ p ∈ db.pullRequests,
          ((if p.prId == pid then { pr with status := "MERGED", mergedAt := some db.now }
            else p) : PRRow).authorId = p.authorId := by
        intro p hp
        by_cases hc : (p.prId == pid) = true
        · have h1 : p.prId = pid := by simpa using hc
          have h2 : p = pr := lookupPR_unique db pid pr h.2.1 hl p hp h1
          subst h2
          simp [hc]
        · simp [hc]
      refine ⟨h.1, ?_, h.2.2.1, ?_, ?_⟩
      · show ((db.pullRequests.map (fun p =>
            if p.prId == pid then { pr with status := "MERGED", mergedAt := some db.now }
            else p)).map (fun p => p.prId)).Nodup
        rw [prs_map_ids _ _ (fun p _ => hid p)]
        exact h.2.1
      · intro r hr p' hp' hpe
        obtain ⟨p, hp, he⟩ := List.mem_map.mp hp'
        have hres := h.2.2.2.1 r hr p hp (by rw [hpe, ← he, hid p])
        rw [← he, hauth p hp]
        exact hres
      · intro r hr
        obtain ⟨p, hp, hpe⟩ := h.2.2.2.2 r hr
        exact ⟨_, List.mem_map_of_mem _ hp, by rw [hid p]; exact hpe⟩

/-- The reviewer-insert loop, when it commits, keeps the reviewer keys
duplicate-free, changes no other table, and only appends rows for the
given PR (which it has checked to exist) and the given user ids. -/
theorem insertLoop_inv (pid : String) (ids : List String) :
    ∀ (db db' : DB), insertReviewersLoop db pid ids = some db' →
      (db.reviewers.map (fun r => (r.prId, r.userId))).Nodup →
      (db'.reviewers.map (fun r => (r.prId, r.userId))).Nodup ∧
      db'.users = db.users ∧ db'.pullRequests = db.pullRequests ∧
      (∀ r ∈ db'.reviewers, r ∈ db.reviewers ∨
        (r.prId = pid ∧ r.userId ∈ ids ∧ (lookupPR db pid).isSome = true)) := by
  induction ids with
  | nil =>
    intro db db' h hk
    have he : db = db' := by simpa [insertReviewersLoop] using h
    subst he
    exact ⟨hk, rfl, rfl, fun r hr => Or.inl hr⟩
  | cons u ids ih =>
    intro db db' h hk
    cases hins : insertReviewer db pid u true with
    | none =>
      simp only [insertReviewersLoop, hins] at h
      exact absurd h (by simp)
    | some rs =>
      simp only [insertReviewersLoop, hins] at h
      unfold insertReviewer at hins
      split at hins
      · exact absurd hins (by simp)
      next hrow =>
        split at hins
        · exact absurd hins (by simp)
        next huser =>
          split at hins
          · exact absurd hins (by simp)
          next hprx =>
            have hrs : rs = db.reviewers ++ [⟨pid, u, true⟩] := by
              simpa using hins.symm
            subst hrs
            have hps : (lookupPR db pid).isSome = true := by
              cases hopt : lookupPR db pid with
              | none => exact absurd (by rw [hopt]; rfl) hprx
              | some q => rfl
            have hk2 : (((db.reviewers ++ [(⟨pid, u, true⟩ : ReviewerRow)]).map
                (fun r => (r.prId, r.userId)))).Nodup := by
              rw [List.map_append]
              refine (List.perm_append_singleton _ _).nodup_iff.mpr ?_
              rw [List.nodup_cons]
              refine ⟨?_, hk⟩
              intro hmem
              obtain ⟨r, hr, he⟩ := List.mem_map.mp hmem
              refine hrow (List.any_eq_true.mpr ⟨r, hr, ?_⟩)
              have h1 : r.prId = pid := congrArg Prod.fst he
              have h2 : r.userId = u := congrArg Prod.snd he
              simp [h1, h2]
            obtain ⟨k1, k2, k3, k4⟩ := ih _ db' h hk2
            refine ⟨k1, k2, k3, ?_⟩
            intro r hr
            rcases k4 r hr with hr' | ⟨e1, e2, _⟩
            · rcases List.mem_append.mp hr' with hold | hnew
              · exact Or.inl hold
              · have he : r = ⟨pid, u, true⟩ := by simpa using hnew
                subst he
                exact Or.inr ⟨rfl, List.mem_cons_self u ids, hps⟩
            · exact Or.inr ⟨e1, List.mem_cons_of_mem u e2, hps⟩

/-- `RepositoryImpl.CreatePR` preserves the invariants, for any reviewer
id list whose members differ from the author. -/
theorem inv_repoCreatePR (db : DB) (pid title a : String) (ids : List String)
    (h : Inv db) (hids : ∀ u ∈ ids, u ≠ a) :
    Inv (repoCreatePR db pid title a ids).2 := by
  unfold repoCreatePR
  split
  · exact h
  next hfrs =>
    split
    · exact h
    next hau =>
      cases hloop : insertReviewersLoop
          { db with pullRequests := db.pullRequests
              ++ [⟨pid, title, a, "OPEN", db.now, none⟩] } pid ids with
      | none =>
        simp only [hloop]
        exact h
      | some db2 =>
        simp only [hloop]
        have hfresh : lookupPR db pid = none := by
          cases hopt : lookupPR db pid with
          | none => rfl
          | some q => exact absurd (by rw [hopt]; rfl) hfrs
        have hnotin : pid ∉ db.pullRequests.map (fun p => p.prId) := by
          intro hmem
          obtain ⟨p, hp, he⟩ := List.mem_map.mp hmem
          have := List.find?_eq_none.mp hfresh p hp
          simp [he] at this
        obtain ⟨k1, k2, k3, k4⟩ := insertLoop_inv pid ids _ db2 hloop h.2.2.1
        refine ⟨?_, ?_, k1, ?_, ?_⟩
        · rw [show ({ db2 with now := db.now + 1 } : DB).users = db2.users from rfl, k2]
          exact h.1
        · rw [show ({ db2 with now := db.now + 1 } : DB).pullRequests = db2.pullRequests
            from rfl, k3]
          show ((db.pullRequests ++ [(⟨pid, title, a, "OPEN", db.now, none⟩ : PRRow)]).map
            (fun p => p.prId)).Nodup
          rw [List.map_append]
          refine (List.perm_append_singleton _ _).nodup_iff.mpr ?_
          rw [List.nodup_cons]
          exact ⟨hnotin, h.2.1⟩
        · intro r hr p' hp' hpe
          rw [show ({ db2 with now := db.now + 1 } : DB).pullRequests = db2.pullRequests
            from rfl, k3] at hp'
          have hr2 : r ∈ db2.reviewers := hr
          rcases k4 r hr2 with hold | ⟨e1, e2, _⟩
          · rcases List.mem_append.mp hp' with hpold | hpnew
            · exact h.2.2.2.1 r hold p' hpold hpe
            · have hp'' : p' = ⟨pid, title, a, "OPEN", db.now, none⟩ := by simpa using hpnew
              subst hp''
              obtain ⟨q, hq, hqe⟩ := h.2.2.2.2 r hold
              exact absurd (List.mem_map.mpr ⟨q, hq, by rw [hqe, hpe]⟩) hnotin
          · rcases List.mem_append.mp hp' with hpold | hpnew
            · exact absurd (List.mem_map.mpr ⟨p', hpold, by rw [← hpe, e1]⟩) hnotin
            · have hp'' : p' = ⟨pid, title, a, "OPEN", db.now, none⟩ := by simpa using hpnew
              subst hp''
              exact fun he => hids r.userId e2 he
        · intro r hr
          have hr2 : r ∈ db2.reviewers := hr
          rw [show ({ db2 with now := db.now + 1 } : DB).pullRequests = db2.pullRequests
            from rfl, k3]
          rcases k4 r hr2 with hold | ⟨e1, _, _⟩
          · obtain ⟨q, hq, hqe⟩ := h.2.2.2.2 r hold
            exact ⟨q, List.mem_append_left _ hq, hqe⟩
          · exact ⟨⟨pid, title, a, "OPEN", db.now, none⟩,
              List.mem_append_right _ (List.mem_singleton_self _), e1.symm⟩

/-- `ServiceImpl.CreatePR` preserves the invariants. -/
theorem inv_svcCreatePR (db : DB) (pid title a : String) (h : Inv db) :
    Inv (svcCreatePR db pid title a).2 := by
  cases hl : lookupUser db a with
  | none =>
    have he : svcCreatePR db pid title a = (.error .notFound, db) := by
      unfold svcCreatePR repoSetUserActive
      rw [hl]
    rw [he]
    exact h
  | some au =>
    rw [svcCreatePR_stage db pid title a au hl]
    have hA : Inv (setActiveDB db a) :=
      inv_users_map db _ (fun v => by by_cases hv : (v.id == a) = true <;> simp [hv])
        (db.now + 1) h
    split
    · exact hA
    · have hinv2 : Inv (repoCreatePR (setActiveDB db a) pid title a
          (getCandidateReviewers (setActiveDB db a) a 2)).2 := by
        refine inv_repoCreatePR _ pid title a _ hA ?_
        intro u hu
        rw [getCandidateReviewers_setActive db a 2] at hu
        obtain ⟨v, _, hid, _, hne⟩ := mem_getCandidateReviewers db a 2 u hu
        rw [← hid]
        exact hne
      cases hcr : repoCreatePR (setActiveDB db a) pid title a
          (getCandidateReviewers (setActiveDB db a) a 2) with
      | mk res db2 =>
        rw [hcr] at hinv2
        cases res with
        | error e =>
          simp only [hcr]
          exact hinv2
        | ok x =>
          simp only [hcr]
          cases hg : repoGetPR db2 pid with
          | error e =>
            simp only [hg]
            exact hinv2
          | ok r =>
            simp only [hg]
            exact hinv2

/-- Deactivation does not change the reviewer key column. -/
theorem deactivate_keys (db : DB) (pid oldUid : String) :
    (deactivateOld db pid oldUid).reviewers.map (fun r => (r.prId, r.userId))
      = db.reviewers.map (fun r => (r.prId, r.userId)) := by
  unfold deactivateOld
  rw [List.map_map]
  refine List.map_congr_left (fun r _ => ?_)
  simp only [Function.comp_apply]
  split <;> rfl

/-- `RepositoryImpl.ReassignReviewer` preserves the invariants. -/
theorem inv_repoReassign (db : DB) (pid oldUid : String) (h : Inv db) :
    Inv (repoReassignReviewer db pid oldUid).2 := by
  unfold repoReassignReviewer
  split
  · exact h
  next pr hpr =>
    split
    · exact h
    split
    · exact h
    split
    · exact h
    next tm htm =>
      split
      · exact h
      next newU hcand =>
        split
        · exact h
        next rs hins =>
          unfold insertReviewer at hins
          split at hins
          · exact absurd hins (by simp)
          next hrow =>
            split at hins
            · exact absurd hins (by simp)
            split at hins
            · exact absurd hins (by simp)
            have hrs : rs = (deactivateOld db pid oldUid).reviewers ++ [⟨pid, newU.id, true⟩] := by
              simpa using hins.symm
            subst hrs
            unfold reassignCandidate at hcand
            have hel := List.find?_some hcand
            unfold eligibleReplacement at hel
            simp only [Bool.and_eq_true, bne_iff_ne, ne_eq] at hel
            have hprid : pr.prId = pid := by simpa using List.find?_some hpr
            have hprmem : pr ∈ db.pullRequests := List.mem_of_find?_eq_some hpr
            have hkeynotin : ((pid, newU.id) : String × String)
                ∉ db.reviewers.map (fun r => (r.prId, r.userId)) := by
              intro hmem
              obtain ⟨r, hr, he⟩ := List.mem_map.mp hmem
              refine hrow ?_
              show (deactivateOld db pid oldUid).reviewers.any
                (fun r => r.prId == pid && r.userId == newU.id) = true
              unfold deactivateOld
              refine List.any_eq_true.mpr ⟨_, List.mem_map_of_mem _ hr, ?_⟩
              have h1 : r.prId = pid := congrArg Prod.fst he
              have h2 : r.userId = newU.id := congrArg Prod.snd he
              split <;> simp [h1, h2]
            refine ⟨h.1, h.2.1, ?_, ?_, ?_⟩
            · show ((((deactivateOld db pid oldUid).reviewers
                ++ [(⟨pid, newU.id, true⟩ : ReviewerRow)])).map
                  (fun r => (r.prId, r.userId))).Nodup
              rw [List.map_append, deactivate_keys]
              refine (List.perm_append_singleton _ _).nodup_iff.mpr ?_
              rw [List.nodup_cons]
              exact ⟨hkeynotin, h.2.2.1⟩
            · intro r' hr' p' hp' hpe
              rcases List.mem_append.mp hr' with hold | hnew
              · obtain ⟨r, hr, he⟩ := List.mem_map.mp hold
                have h1 : r'.prId = r.prId := by
                  rw [← he]
                  split <;> rfl
                have h2 : r'.userId = r.userId := by
                  rw [← he]
                  split <;> rfl
                rw [h2]
                exact h.2.2.2.1 r hr p' hp' (by rw [← h1, hpe])
              · have he : r' = ⟨pid, newU.id, true⟩ := by simpa using hnew
                subst he
                have hp'' : p' = pr :=
                  lookupPR_unique db pid pr h.2.1 hpr p' hp' (by simpa using hpe.symm)
                subst hp''
                exact hel.1.1.1.2
            · intro r' hr'
              rcases List.mem_append.mp hr' with hold | hnew
              · obtain ⟨r, hr, he⟩ := List.mem_map.mp hold
                obtain ⟨q, hq, hqe⟩ := h.2.2.2.2 r hr
                refine ⟨q, hq, ?_⟩
                have hf : r'.prId = r.prId := by
                  rw [← he]
                  split <;> rfl
                rw [hf, hqe]
              · have he : r' = ⟨pid, newU.id, true⟩ := by simpa using hnew
                subst he
                exact ⟨pr, hprmem, hprid⟩

/-- `ServiceImpl.ReassignReviewer` preserves the invariants. -/
theorem inv_svcReassign (db : DB) (pid oldUid : String) (h : Inv db) :
    Inv (svcReassignReviewer db pid oldUid).2 := by
  unfold svcReassignReviewer
  split
  · exact h
  next res hres =>
    split
    · exact h
    split
    · exact h
    have hr := inv_repoReassign db pid oldUid h
    cases hrr : repoReassignReviewer db pid oldUid with
    | mk r2 db1 =>
      rw [hrr] at hr
      cases r2 with
      | error e =>
        simp only [hrr]
        exact hr
      | ok newUid =>
        simp only [hrr]
        cases hg : repoGetPR db1 pid with
        | error e =>
          simp only [hg]
          exact hr
        | ok res1 =>
          simp only [hg]
          exact hr

/-- Second components of a duplicate-free pair list with constant first
component are duplicate-free. -/
theorem nodup_snd {α β : Type} (c : α) : ∀ l : List (α × β), l.Nodup →
    (∀ x ∈ l, x.1 = c) → (l.map Prod.snd).Nodup := by
  intro l
  induction l with
  | nil => intro _ _; exact List.nodup_nil
  | cons x l ih =>
    intro hn hc
    rw [List.map_cons, List.nodup_cons]
    refine ⟨?_, ih (List.nodup_cons.mp hn).2 (fun y hy => hc y (List.mem_cons_of_mem x hy))⟩
    intro hb
    obtain ⟨y, hy, he⟩ := List.mem_map.mp hb
    have h1 : y.1 = c := hc y (List.mem_cons_of_mem x hy)
    have h2 : x.1 = c := hc x (List.mem_cons_self x l)
    have h3 : y = x := Prod.ext (h1.trans h2.symm) he
    exact (List.nodup_cons.mp hn).1 (h3 ▸ hy)

/-- Under the reviewer primary key, a PR's active reviewer ids are
duplicate-free. -/
theorem nodup_activeIds (db : DB) (pid : String)
    (hkey : (db.reviewers.map (fun r => (r.prId, r.userId))).Nodup) :
    (activeReviewerIds db pid).Nodup := by
  have h1 : ((activeReviewerRows db pid).map (fun r => (r.prId, r.userId))).Nodup :=
    hkey.sublist (List.Sublist.map _ (List.filter_sublist _))
  have h2 : ∀ x ∈ (activeReviewerRows db pid).map (fun r => (r.prId, r.userId)),
      x.1 = pid := by
    intro x hx
    obtain ⟨r, hr, he⟩ := List.mem_map.mp hx
    have h3 := (List.mem_filter.mp hr).2
    simp only [Bool.and_eq_true, beq_iff_eq] at h3
    rw [← he]
    exact h3.1
  have h4 := nodup_snd pid _ h1 h2
  rw [List.map_map] at h4
  exact h4

/-- C7.  In every state reachable by the service operations, every pull
request's active reviewer set has no duplicate user id and never
contains the PR's author. -/
theorem C7_active_reviewers_invariant (db : DB) (h : Reachable db) :
    ∀ pr ∈ db.pullRequests, (activeReviewerIds db pr.prId).Nodup ∧
      pr.authorId ∉ activeReviewerIds db pr.prId := by
  have hInv : Inv db := by
    induction h with
    | init => exact inv_db0
    | step hr hs ih =>
      cases hs with
      | createTeam name members => exact inv_createTeam _ name members ih
      | createPR pid title a => exact inv_svcCreatePR _ pid title a ih
      | mergePR pid => exact inv_mergePR _ pid ih
      | reassign pid oldUid => exact inv_svcReassign _ pid oldUid ih
      | setActive uid active => exact inv_setUserActive _ uid active ih
  intro pr hpr
  refine ⟨nodup_activeIds db pr.prId hInv.2.2.1, ?_⟩
  intro hmem
  obtain ⟨r, hr, he⟩ := List.mem_map.mp hmem
  have hf := List.mem_filter.mp hr
  have hcond := hf.2
  simp only [Bool.and_eq_true, beq_iff_eq] at hcond
  exact hInv.2.2.2.1 r hf.1 pr hpr hcond.1 he

/-- Witness for C7 at a state reached by creating a team and then a pull
request, instantiated at the created PR. -/
theorem C7_invariant_witness :
    (activeReviewerIds dbw7b "p1").Nodup ∧
      "a1" ∉ activeReviewerIds dbw7b "p1" :=
  C7_active_reviewers_invariant dbw7b
    (Reachable.step
      (Reachable.step Reachable.init
        (Step.createTeam db0 "team1" [⟨"a1", "A", true⟩, ⟨"r1", "R1", true⟩]))
      (Step.createPR dbw7a "p1" "T" "a1"))
    ⟨"p1", "T", "a1", "OPEN", 2, none⟩ (by decide)

end PRService
